import Mathlib

/-!
# Verification of the `tui-term` pseudo-terminal widget compositor

Shallow embedding of `src/widget.rs` (the `PseudoTerminal` widget, the
`Cursor` configuration value, the `Screen`/`Cell` capability traits and the
`Widget::render` entry point) together with the per-cell compositor
`state::handle` that `render` delegates to.  `src/state.rs` is referenced by
`widget.rs` (`crate::state`) but is not part of the available sources, so
`state.handle` and its helpers below are modelled from the specification's
description of the compositor (clear, decoration inset, baseline fill,
per-cell 1:1 mapping, cursor overlay).

Style, colours and destination cells follow the specification's
`DestinationCell` data model (glyph, foreground/background colour, and the
bold/italic/underline/reverse attributes), with the external framework's
patch semantics for `set_style` (an optional colour overwrites only when
present; modifiers are added/removed).

Rust `u16` coordinates are embedded as `Nat`; the source only ever subtracts
with saturation (clamping at zero), which is exactly `Nat` subtraction, and
the additions that occur are within the host framework's clamped rectangles,
so no wrap-around modelling is needed.

Loops of the compositor write each destination cell independently of every
other destination cell (each iteration reads and writes only its own cell),
so a per-frame pass over a rectangle is embedded as a pointwise update of the
buffer's cell function; buffers themselves are a rectangle plus a cell
function, and writes outside the buffer's own rectangle are dropped, which is
the clipping behaviour the specification requires.
-/

/-- Style modifier flags; the specification's `DestinationCell` lists
bold, italic, underline and reverse. -/
structure Modifier where
  bold : Bool
  italic : Bool
  underlined : Bool
  reversed : Bool
deriving DecidableEq, Repr

/-- `Modifier::empty()`: no flag set. -/
def Modifier.empty : Modifier := ⟨false, false, false, false⟩

/-- `Modifier::insert`: set every flag that is set in `n`. -/
def Modifier.insert (m n : Modifier) : Modifier :=
  ⟨m.bold || n.bold, m.italic || n.italic,
   m.underlined || n.underlined, m.reversed || n.reversed⟩

/-- `Modifier::remove`: clear every flag that is set in `n`. -/
def Modifier.remove (m n : Modifier) : Modifier :=
  ⟨m.bold && !n.bold, m.italic && !n.italic,
   m.underlined && !n.underlined, m.reversed && !n.reversed⟩

/-- Colours used by the widget (`Color::Reset` is the cleared cell's colour,
`Color::Gray` the default cursor foreground); the remaining constructors
stand in for the rest of the framework's palette. -/
inductive Color where
  | Reset
  | Black
  | Gray
  | White
  | Cyan
  | LightRed
deriving DecidableEq, Repr

/-- `ratatui::style::Style`: optional foreground/background colour and
modifier flags to add and to remove when the style is patched onto a cell. -/
structure Style where
  fg : Option Color
  bg : Option Color
  add_modifier : Modifier
  sub_modifier : Modifier
deriving DecidableEq, Repr

/-- `Style::default()`: changes nothing when applied. -/
def Style.default : Style := ⟨none, none, Modifier.empty, Modifier.empty⟩

/-- A destination-surface cell (`ratatui::buffer::Cell`): glyph plus style
attributes. -/
structure BufCell where
  symbol : String
  fg : Color
  bg : Color
  modifier : Modifier
deriving DecidableEq, Repr

/-- The cleared destination cell: a blank glyph with reset colours and no
modifier. -/
def BufCell.reset : BufCell := ⟨" ", Color.Reset, Color.Reset, Modifier.empty⟩

/-- `Cell::set_symbol`: replace the glyph, keep the style. -/
def BufCell.set_symbol (c : BufCell) (s : String) : BufCell := { c with symbol := s }

/-- `Cell::set_style`: patch semantics — an optional colour overwrites only
when present, `add_modifier` flags are inserted, `sub_modifier` flags
removed; the glyph is untouched. -/
def BufCell.set_style (c : BufCell) (s : Style) : BufCell :=
  { c with
    fg := s.fg.getD c.fg
    bg := s.bg.getD c.bg
    modifier := (c.modifier.insert s.add_modifier).remove s.sub_modifier }

/-- `ratatui::layout::Rect`: origin plus width/height. -/
structure Rect where
  x : Nat
  y : Nat
  width : Nat
  height : Nat
deriving DecidableEq, Repr

/-- Membership of an absolute position in a rectangle. -/
def Rect.contains (r : Rect) (px py : Nat) : Prop :=
  r.x ≤ px ∧ px < r.x + r.width ∧ r.y ≤ py ∧ py < r.y + r.height

instance (r : Rect) (px py : Nat) : Decidable (r.contains px py) := by
  unfold Rect.contains; infer_instance

/-- A screen cell, the `Cell` capability of `widget.rs`
(`has_contents` plus `apply`).  Modelled from the spec: the concrete cell
type of the terminal-model backend is not under `src/`; per the spec a cell
is one character position's glyph plus style attributes. -/
structure Cell where
  has_contents : Bool
  symbol : String
  fg : Color
  bg : Color
  modifier : Modifier
deriving DecidableEq, Repr

/-- Modelled from the spec: `Cell::apply` "writes this cell's glyph and
style into a destination-cell representation" (the backend implementation is
not under `src/`), i.e. the destination cell is fully replaced by this
cell's own glyph and attributes. -/
def Cell.apply (c : Cell) (_d : BufCell) : BufCell :=
  ⟨c.symbol, c.fg, c.bg, c.modifier⟩

/-- The `Screen` capability of `widget.rs`: cell lookup by (row, col),
the hidden-cursor flag, and the cursor position `(row, column)`. -/
structure Screen where
  cell : Nat → Nat → Option Cell
  hide_cursor : Bool
  cursor_position : Nat × Nat

/-- The cursor presentation spec of `widget.rs` (`Cursor`): visibility flag
(`show` in the source; `show` is reserved here), glyph, base style and
overlay style. -/
structure Cursor where
  show_ : Bool
  symbol : String
  style : Style
  overlay_style : Style
deriving DecidableEq, Repr

/-- `Cursor::symbol`: set the cursor glyph. -/
def Cursor.with_symbol (c : Cursor) (symbol : String) : Cursor :=
  { c with symbol := symbol }

/-- `Cursor::style`: set the base cursor style. -/
def Cursor.with_style (c : Cursor) (style : Style) : Cursor :=
  { c with style := style }

/-- `Cursor::overlay_style`: set the overlay style used when the cursor
overlaps existing content. -/
def Cursor.with_overlay_style (c : Cursor) (overlay_style : Style) : Cursor :=
  { c with overlay_style := overlay_style }

/-- `Cursor::visibility`: set the visibility flag. -/
def Cursor.visibility (c : Cursor) (show_ : Bool) : Cursor :=
  { c with show_ := show_ }

/-- `Cursor::show`: make the cursor visible. -/
def Cursor.show_on (c : Cursor) : Cursor := { c with show_ := true }

/-- `Cursor::hide`: hide the cursor. -/
def Cursor.hide (c : Cursor) : Cursor := { c with show_ := false }

/-- `impl Default for Cursor`: visible, solid block glyph `"█"`, gray
foreground base style, reverse-video overlay style. -/
def Cursor.default : Cursor :=
  { show_ := true
    symbol := "█"
    style := { Style.default with fg := some Color.Gray }
    overlay_style := { Style.default with
                       add_modifier := { Modifier.empty with reversed := true } } }

/-- Modelled from ratatui (external collaborator): a `Block` decoration with
border flags, an optional title and a style of its own. -/
structure Block where
  border_left : Bool
  border_right : Bool
  border_top : Bool
  border_bottom : Bool
  has_title : Bool
  style : Style
deriving DecidableEq, Repr

/-- `Block::inner` (external collaborator, transcribed from ratatui): shrink
the area by one row/column for every border side that is drawn (the top also
when a title is present), saturating at zero. -/
def Block.inner (b : Block) (area : Rect) : Rect :=
  { x := if b.border_left then min (area.x + 1) (area.x + area.width) else area.x
    y := if b.border_top || b.has_title then min (area.y + 1) (area.y + area.height)
         else area.y
    width :=
      (if b.border_left then area.width - 1 else area.width) -
        (if b.border_right then 1 else 0)
    height :=
      (if b.border_top || b.has_title then area.height - 1 else area.height) -
        (if b.border_bottom then 1 else 0) }

/-- The glyph+style a decoration paints into its frame cells. -/
def Block.border_cell (b : Block) : BufCell :=
  (BufCell.reset.set_symbol "─").set_style b.style

/-- The destination surface (`ratatui::buffer::Buffer`): its own rectangle
plus the cell at every position; only positions inside `area` are ever
written (writes elsewhere are dropped, the clipping the spec requires). -/
structure Buffer where
  area : Rect
  cells : Nat → Nat → BufCell

/-- Read the cell of the surface at an absolute position. -/
def Buffer.get (b : Buffer) (x y : Nat) : BufCell := b.cells x y

/-- Write one cell, clipped to the surface's rectangle. -/
def Buffer.set (b : Buffer) (x y : Nat) (c : BufCell) : Buffer :=
  if b.area.contains x y then
    { b with cells := fun px py => if px = x ∧ py = y then c else b.cells px py }
  else b

/-- `Clear.render` (external collaborator): reset every cell of the area,
clipped to the surface. -/
def clearArea (area : Rect) (buf : Buffer) : Buffer :=
  { buf with cells := fun x y =>
      if area.contains x y ∧ buf.area.contains x y then BufCell.reset
      else buf.cells x y }

/-- `Block::render` (external collaborator, modelled): the decoration paints
its border and title glyphs into the frame region of the outer area — the
cells of the area that its `inner` rectangle gives up — clipped to the
surface. -/
def Block.render (b : Block) (area : Rect) (buf : Buffer) : Buffer :=
  { buf with cells := fun x y =>
      if area.contains x y ∧ buf.area.contains x y ∧ ¬ (b.inner area).contains x y
      then b.border_cell else buf.cells x y }

/-- The widget configuration (`PseudoTerminal`): screen reference, optional
decoration, optional baseline style override, cursor spec. -/
structure PseudoTerminal where
  screen : Screen
  block : Option Block
  style : Option Style
  cursor : Cursor

/-- `PseudoTerminal::new`: default configuration around a screen. -/
def PseudoTerminal.new (screen : Screen) : PseudoTerminal :=
  { screen := screen
    block := none
    style := none
    cursor := Cursor.default }

/-- `PseudoTerminal::block`: set the decoration. -/
def PseudoTerminal.with_block (t : PseudoTerminal) (block : Block) : PseudoTerminal :=
  { t with block := some block }

/-- `PseudoTerminal::cursor`: set the cursor spec. -/
def PseudoTerminal.with_cursor (t : PseudoTerminal) (cursor : Cursor) : PseudoTerminal :=
  { t with cursor := cursor }

/-- `PseudoTerminal::style`: set the baseline override style. -/
def PseudoTerminal.with_style (t : PseudoTerminal) (style : Style) : PseudoTerminal :=
  { t with style := some style }

/-- Modelled from the spec: the baseline fill of `state::handle` (step 3,
`src/state.rs` is not under `src/`) — apply the override style across every
cell of the inner area before per-cell content is written. -/
def styleFill (area : Rect) (st : Style) (buf : Buffer) : Buffer :=
  { buf with cells := fun x y =>
      if area.contains x y ∧ buf.area.contains x y then (buf.cells x y).set_style st
      else buf.cells x y }

/-- Modelled from the spec: the per-cell mapping of `state::handle` (step 4,
`src/state.rs` is not under `src/`) — each destination position of the inner
area is a 1:1 logical coordinate into the screen; a cell with renderable
content applies its glyph and style onto the destination cell, every other
position is left at its current value (silent clipping both ways). -/
def mapCells (s : Screen) (area : Rect) (buf : Buffer) : Buffer :=
  { buf with cells := fun x y =>
      if area.contains x y ∧ buf.area.contains x y then
        match s.cell (y - area.y) (x - area.x) with
        | some cl => if cl.has_contents then cl.apply (buf.cells x y) else buf.cells x y
        | none => buf.cells x y
      else buf.cells x y }

/-- Modelled from the spec: the cursor overlay of `state::handle` (step 5,
`src/state.rs` is not under `src/`) — when the spec's flag shows the cursor,
the screen does not hide it, and its logical position is inside the inner
area and inside screen bounds: merge the overlay style onto a content cell,
or write the cursor glyph with the base style onto a contentless cell. -/
def cursorOverlay (t : PseudoTerminal) (area : Rect) (buf : Buffer) : Buffer :=
  if t.cursor.show_ = true ∧ t.screen.hide_cursor = false then
    let row := t.screen.cursor_position.1
    let col := t.screen.cursor_position.2
    if row < area.height ∧ col < area.width then
      match t.screen.cell row col with
      | some cl =>
        if cl.has_contents then
          buf.set (area.x + col) (area.y + row)
            ((buf.get (area.x + col) (area.y + row)).set_style t.cursor.overlay_style)
        else
          buf.set (area.x + col) (area.y + row)
            (((buf.get (area.x + col) (area.y + row)).set_symbol t.cursor.symbol).set_style
              t.cursor.style)
      | none => buf
    else buf
  else buf

/-- Modelled from the spec: `state::handle` (`src/state.rs`, not under
`src/`), the per-cell compositor `widget.rs` delegates to — baseline fill,
then per-cell mapping, then the cursor overlay, all against the (inner)
area it is given. -/
def state.handle (t : PseudoTerminal) (area : Rect) (buf : Buffer) : Buffer :=
  let b1 := match t.style with
    | some st => styleFill area st buf
    | none => buf
  let b2 := mapCells t.screen area b1
  cursorOverlay t area b2

/-- `impl Widget for PseudoTerminal::render` (`widget.rs`): clear the area,
then, when a decoration is configured, compute the inner area, draw the
decoration into the outer area and continue against the inner area;
finally run the per-cell compositor. -/
def PseudoTerminal.render (t : PseudoTerminal) (area : Rect) (buf : Buffer) : Buffer :=
  let b1 := clearArea area buf
  match t.block with
  | none => state.handle t area b1
  | some bl => state.handle t (bl.inner area) (bl.render area b1)

/-- The inner area the compositor runs against: the decoration's inset when
one is configured, the given area otherwise. -/
def innerArea (t : PseudoTerminal) (area : Rect) : Rect :=
  match t.block with
  | none => area
  | some bl => bl.inner area

/-- The baseline value every inner-area cell holds after clear and baseline
fill: the cleared cell, patched with the override style when one is
configured. -/
def baseline (t : PseudoTerminal) : BufCell :=
  match t.style with
  | some st => BufCell.reset.set_style st
  | none => BufCell.reset

/-- The ordinary (cursor-free) content of an inner-area cell after render:
a screen cell with renderable content applies itself onto the baseline, any
other logical coordinate leaves the baseline. -/
def contentValue (t : PseudoTerminal) (r c : Nat) : BufCell :=
  match t.screen.cell r c with
  | some cl => if cl.has_contents then cl.apply (baseline t) else baseline t
  | none => baseline t

/-- All conditions under which the cursor overlay fires: spec flag set,
screen does not hide it, logical position inside the inner area and inside
screen bounds. -/
def cursorActive (t : PseudoTerminal) (inner : Rect) : Prop :=
  t.cursor.show_ = true ∧ t.screen.hide_cursor = false ∧
    t.screen.cursor_position.1 < inner.height ∧
    t.screen.cursor_position.2 < inner.width ∧
    (t.screen.cell t.screen.cursor_position.1 t.screen.cursor_position.2).isSome = true

instance (t : PseudoTerminal) (inner : Rect) : Decidable (cursorActive t inner) := by
  unfold cursorActive; infer_instance

/-- The value a cursor-adjusted inner-area cell holds after render: when the
cursor fires at this logical coordinate, its overlay is applied on top of
the ordinary content; otherwise the ordinary content stands. -/
def renderedCell (t : PseudoTerminal) (inner : Rect) (r c : Nat) : BufCell :=
  if cursorActive t inner ∧ t.screen.cursor_position = (r, c) then
    match t.screen.cell r c with
    | some cl =>
      if cl.has_contents then (cl.apply (baseline t)).set_style t.cursor.overlay_style
      else ((baseline t).set_symbol t.cursor.symbol).set_style t.cursor.style
    | none => contentValue t r c
  else contentValue t r c

/-- The value any in-area, in-surface destination cell holds after render:
inner-area cells hold their (cursor-adjusted) content, the remaining frame
cells hold the decoration's glyph. -/
def renderValue (t : PseudoTerminal) (area : Rect) (x y : Nat) : BufCell :=
  if (innerArea t area).contains x y then
    renderedCell t (innerArea t area)
      (y - (innerArea t area).y) (x - (innerArea t area).x)
  else
    match t.block with
    | some b => b.border_cell
    | none => BufCell.reset

theorem Buffer.area_set (b : Buffer) (x y : Nat) (c : BufCell) :
    (b.set x y c).area = b.area := by
  unfold Buffer.set; split <;> rfl

theorem Buffer.get_set (b : Buffer) (x y : Nat) (c : BufCell) (px py : Nat) :
    (b.set x y c).get px py =
      if b.area.contains x y ∧ px = x ∧ py = y then c else b.get px py := by
  unfold Buffer.set Buffer.get
  by_cases h : b.area.contains x y
  · by_cases h2 : px = x ∧ py = y <;> simp [h, h2]
  · simp [h]

theorem get_clearArea (area : Rect) (buf : Buffer) (x y : Nat) :
    (clearArea area buf).get x y =
      if area.contains x y ∧ buf.area.contains x y then BufCell.reset
      else buf.get x y := rfl

theorem get_block_render (b : Block) (area : Rect) (buf : Buffer) (x y : Nat) :
    (b.render area buf).get x y =
      if area.contains x y ∧ buf.area.contains x y ∧ ¬ (b.inner area).contains x y
      then b.border_cell else buf.get x y := rfl

theorem get_styleFill (area : Rect) (st : Style) (buf : Buffer) (x y : Nat) :
    (styleFill area st buf).get x y =
      if area.contains x y ∧ buf.area.contains x y then (buf.get x y).set_style st
      else buf.get x y := rfl

theorem get_mapCells (s : Screen) (area : Rect) (buf : Buffer) (x y : Nat) :
    (mapCells s area buf).get x y =
      if area.contains x y ∧ buf.area.contains x y then
        match s.cell (y - area.y) (x - area.x) with
        | some cl => if cl.has_contents then cl.apply (buf.get x y) else buf.get x y
        | none => buf.get x y
      else buf.get x y := rfl

theorem Block.inner_bounds (b : Block) (area : Rect) :
    area.x ≤ (b.inner area).x ∧
      (b.inner area).x + (b.inner area).width ≤ area.x + area.width ∧
      area.y ≤ (b.inner area).y ∧
      (b.inner area).y + (b.inner area).height ≤ area.y + area.height ∧
      (b.inner area).width ≤ area.width ∧ (b.inner area).height ≤ area.height := by
  unfold Block.inner
  dsimp only
  split_ifs <;> omega

theorem Block.inner_contains (b : Block) (area : Rect) (x y : Nat)
    (h : (b.inner area).contains x y) : area.contains x y := by
  have hb := Block.inner_bounds b area
  unfold Rect.contains at h ⊢
  omega

theorem innerArea_contains (t : PseudoTerminal) (area : Rect) (x y : Nat)
    (h : (innerArea t area).contains x y) : area.contains x y := by
  unfold innerArea at h
  cases hb : t.block with
  | none => rw [hb] at h; exact h
  | some bl => rw [hb] at h; exact Block.inner_contains bl area x y h

theorem area_clearArea (area : Rect) (buf : Buffer) :
    (clearArea area buf).area = buf.area := rfl

theorem area_block_render (b : Block) (area : Rect) (buf : Buffer) :
    (b.render area buf).area = buf.area := rfl

theorem area_styleFill (area : Rect) (st : Style) (buf : Buffer) :
    (styleFill area st buf).area = buf.area := rfl

theorem area_mapCells (s : Screen) (area : Rect) (buf : Buffer) :
    (mapCells s area buf).area = buf.area := rfl

theorem area_cursorOverlay (t : PseudoTerminal) (area : Rect) (buf : Buffer) :
    (cursorOverlay t area buf).area = buf.area := by
  unfold cursorOverlay
  split <;> try rfl
  dsimp only
  split <;> try rfl
  split <;> try rfl
  split <;> simp [Buffer.area_set]

theorem area_handle (t : PseudoTerminal) (area : Rect) (buf : Buffer) :
    (state.handle t area buf).area = buf.area := by
  unfold state.handle
  cases t.style <;> simp [area_cursorOverlay, area_mapCells, area_styleFill]

theorem area_render (t : PseudoTerminal) (area : Rect) (buf : Buffer) :
    (t.render area buf).area = buf.area := by
  unfold PseudoTerminal.render
  cases t.block <;> simp [area_handle, area_block_render, area_clearArea]

theorem get_cursorOverlay_at (t : PseudoTerminal) (area : Rect) (buf : Buffer)
    (h1 : t.cursor.show_ = true) (h2 : t.screen.hide_cursor = false)
    (h3 : t.screen.cursor_position.1 < area.height)
    (h4 : t.screen.cursor_position.2 < area.width) :
    (cursorOverlay t area buf).get (area.x + t.screen.cursor_position.2)
        (area.y + t.screen.cursor_position.1) =
      match t.screen.cell t.screen.cursor_position.1 t.screen.cursor_position.2 with
      | some cl =>
        if buf.area.contains (area.x + t.screen.cursor_position.2)
            (area.y + t.screen.cursor_position.1) then
          if cl.has_contents then
            (buf.get (area.x + t.screen.cursor_position.2)
                (area.y + t.screen.cursor_position.1)).set_style t.cursor.overlay_style
          else
            ((buf.get (area.x + t.screen.cursor_position.2)
                (area.y + t.screen.cursor_position.1)).set_symbol
              t.cursor.symbol).set_style t.cursor.style
        else
          buf.get (area.x + t.screen.cursor_position.2)
            (area.y + t.screen.cursor_position.1)
      | none =>
        buf.get (area.x + t.screen.cursor_position.2)
          (area.y + t.screen.cursor_position.1) := by
  unfold cursorOverlay
  rw [if_pos ⟨h1, h2⟩]
  dsimp only
  rw [if_pos ⟨h3, h4⟩]
  cases hc : t.screen.cell t.screen.cursor_position.1 t.screen.cursor_position.2 with
  | none => rfl
  | some cl =>
    dsimp only
    by_cases h5 : cl.has_contents = true
    · rw [if_pos h5, Buffer.get_set]
      by_cases h6 : buf.area.contains (area.x + t.screen.cursor_position.2)
          (area.y + t.screen.cursor_position.1)
      · rw [if_pos ⟨h6, rfl, rfl⟩, if_pos h6, if_pos h5]
      · rw [if_neg (by tauto), if_neg h6]
    · rw [if_neg h5, Buffer.get_set]
      by_cases h6 : buf.area.contains (area.x + t.screen.cursor_position.2)
          (area.y + t.screen.cursor_position.1)
      · rw [if_pos ⟨h6, rfl, rfl⟩, if_pos h6, if_neg h5]
      · rw [if_neg (by tauto), if_neg h6]

theorem get_cursorOverlay_not (t : PseudoTerminal) (area : Rect) (buf : Buffer)
    (px py : Nat)
    (h : ¬ (t.cursor.show_ = true ∧ t.screen.hide_cursor = false ∧
        t.screen.cursor_position.1 < area.height ∧
        t.screen.cursor_position.2 < area.width ∧
        px = area.x + t.screen.cursor_position.2 ∧
        py = area.y + t.screen.cursor_position.1)) :
    (cursorOverlay t area buf).get px py = buf.get px py := by
  unfold cursorOverlay
  by_cases hA : t.cursor.show_ = true ∧ t.screen.hide_cursor = false
  · rw [if_pos hA]
    dsimp only
    by_cases hB : t.screen.cursor_position.1 < area.height ∧
        t.screen.cursor_position.2 < area.width
    · rw [if_pos hB]
      have hpos : ¬ (px = area.x + t.screen.cursor_position.2 ∧
          py = area.y + t.screen.cursor_position.1) := by tauto
      cases hc : t.screen.cell t.screen.cursor_position.1 t.screen.cursor_position.2 with
      | none => rfl
      | some cl =>
        dsimp only
        by_cases h5 : cl.has_contents = true
        · rw [if_pos h5, Buffer.get_set, if_neg (by tauto)]
        · rw [if_neg h5, Buffer.get_set, if_neg (by tauto)]
    · rw [if_neg hB]
  · rw [if_neg hA]

/-- The optional-baseline-fill stage of the compositor, as its own
function. -/
def fillStep (t : PseudoTerminal) (area : Rect) (buf : Buffer) : Buffer :=
  match t.style with
  | some st => styleFill area st buf
  | none => buf

theorem handle_as_composition (t : PseudoTerminal) (area : Rect) (buf : Buffer) :
    state.handle t area buf =
      cursorOverlay t area (mapCells t.screen area (fillStep t area buf)) := rfl

theorem area_fillStep (t : PseudoTerminal) (area : Rect) (buf : Buffer) :
    (fillStep t area buf).area = buf.area := by
  unfold fillStep; cases t.style <;> rfl

theorem get_fillStep_untouched (t : PseudoTerminal) (area : Rect) (buf : Buffer)
    (x y : Nat) (h : ¬ (area.contains x y ∧ buf.area.contains x y)) :
    (fillStep t area buf).get x y = buf.get x y := by
  unfold fillStep; cases t.style with
  | none => rfl
  | some st => rw [get_styleFill, if_neg h]

theorem get_fillStep_baseline (t : PseudoTerminal) (area : Rect) (buf : Buffer)
    (x y : Nat) (hA : area.contains x y) (hB : buf.area.contains x y)
    (hreset : buf.get x y = BufCell.reset) :
    (fillStep t area buf).get x y = baseline t := by
  unfold fillStep baseline; cases t.style with
  | none => exact hreset
  | some st => rw [get_styleFill, if_pos ⟨hA, hB⟩, hreset]

theorem get_handle_untouched (t : PseudoTerminal) (area : Rect) (buf : Buffer)
    (px py : Nat) (h : ¬ (area.contains px py ∧ buf.area.contains px py)) :
    (state.handle t area buf).get px py = buf.get px py := by
  rw [handle_as_composition]
  have hfa : (fillStep t area buf).area = buf.area := area_fillStep t area buf
  have hfg : (fillStep t area buf).get px py = buf.get px py :=
    get_fillStep_untouched t area buf px py h
  have hma : (mapCells t.screen area (fillStep t area buf)).area = buf.area := by
    rw [area_mapCells, hfa]
  have hmg : (mapCells t.screen area (fillStep t area buf)).get px py =
      buf.get px py := by
    rw [get_mapCells, if_neg (show ¬ (area.contains px py ∧
      (fillStep t area buf).area.contains px py) by rw [hfa]; exact h), hfg]
  by_cases hcnd : t.cursor.show_ = true ∧ t.screen.hide_cursor = false ∧
      t.screen.cursor_position.1 < area.height ∧
      t.screen.cursor_position.2 < area.width ∧
      px = area.x + t.screen.cursor_position.2 ∧
      py = area.y + t.screen.cursor_position.1
  · obtain ⟨c1, c2, c3, c4, c5, c6⟩ := hcnd
    have harea : area.contains px py := by
      unfold Rect.contains; omega
    have hbuf : ¬ buf.area.contains px py := fun hb => h ⟨harea, hb⟩
    subst c5; subst c6
    rw [get_cursorOverlay_at t area _ c1 c2 c3 c4]
    cases hcell : t.screen.cell t.screen.cursor_position.1
        t.screen.cursor_position.2 with
    | none => exact hmg
    | some cl =>
      dsimp only
      rw [if_neg (show ¬ (mapCells t.screen area
          (fillStep t area buf)).area.contains
          (area.x + t.screen.cursor_position.2)
          (area.y + t.screen.cursor_position.1) by rw [hma]; exact hbuf)]
      exact hmg
  · rw [get_cursorOverlay_not t area _ px py hcnd]
    exact hmg

theorem get_handle_at (t : PseudoTerminal) (area : Rect) (buf : Buffer)
    (x y : Nat) (hA : area.contains x y) (hB : buf.area.contains x y)
    (hreset : buf.get x y = BufCell.reset) :
    (state.handle t area buf).get x y =
      renderedCell t area (y - area.y) (x - area.x) := by
  rw [handle_as_composition]
  obtain ⟨a1, a2, a3, a4⟩ : area.x ≤ x ∧ x < area.x + area.width ∧
      area.y ≤ y ∧ y < area.y + area.height := id hA
  have hfa : (fillStep t area buf).area = buf.area := area_fillStep t area buf
  have hfg : (fillStep t area buf).get x y = baseline t :=
    get_fillStep_baseline t area buf x y hA hB hreset
  have hma : (mapCells t.screen area (fillStep t area buf)).area = buf.area := by
    rw [area_mapCells, hfa]
  have hmg : (mapCells t.screen area (fillStep t area buf)).get x y =
      contentValue t (y - area.y) (x - area.x) := by
    rw [get_mapCells, if_pos (show area.contains x y ∧
      (fillStep t area buf).area.contains x y from ⟨hA, by rw [hfa]; exact hB⟩)]
    unfold contentValue
    cases hcell : t.screen.cell (y - area.y) (x - area.x) with
    | none => exact hfg
    | some cl =>
      dsimp only
      cases hhc : cl.has_contents <;> simp [hhc, hfg]
  by_cases hcnd : t.cursor.show_ = true ∧ t.screen.hide_cursor = false ∧
      t.screen.cursor_position.1 < area.height ∧
      t.screen.cursor_position.2 < area.width ∧
      x = area.x + t.screen.cursor_position.2 ∧
      y = area.y + t.screen.cursor_position.1
  · obtain ⟨c1, c2, c3, c4, c5, c6⟩ := hcnd
    have hrc : y - area.y = t.screen.cursor_position.1 := by omega
    have hcc : x - area.x = t.screen.cursor_position.2 := by omega
    rw [hrc, hcc] at hmg ⊢
    subst c5; subst c6
    rw [get_cursorOverlay_at t area _ c1 c2 c3 c4]
    unfold renderedCell
    cases hcell : t.screen.cell t.screen.cursor_position.1
        t.screen.cursor_position.2 with
    | none =>
      rw [if_neg (show ¬ (cursorActive t area ∧ t.screen.cursor_position =
          (t.screen.cursor_position.1, t.screen.cursor_position.2)) by
        intro hcontra
        have hs := hcontra.1.2.2.2.2
        rw [hcell] at hs
        simp at hs)]
      exact hmg
    | some cl =>
      dsimp only
      rw [if_pos (show (mapCells t.screen area
          (fillStep t area buf)).area.contains
          (area.x + t.screen.cursor_position.2)
          (area.y + t.screen.cursor_position.1) by rw [hma]; exact hB)]
      rw [if_pos (show cursorActive t area ∧ t.screen.cursor_position =
          (t.screen.cursor_position.1, t.screen.cursor_position.2) from
        ⟨⟨c1, c2, c3, c4, by rw [hcell]; rfl⟩, rfl⟩)]
      have hcv : contentValue t t.screen.cursor_position.1
          t.screen.cursor_position.2 =
          if cl.has_contents = true then cl.apply (baseline t)
          else baseline t := by
        unfold contentValue
        rw [hcell]
      rw [hmg, hcv]
      cases hhc : cl.has_contents <;> simp [hhc]
  · rw [get_cursorOverlay_not t area _ x y hcnd]
    unfold renderedCell
    rw [if_neg (show ¬ (cursorActive t area ∧ t.screen.cursor_position =
        (y - area.y, x - area.x)) by
      intro hcontra
      obtain ⟨⟨k1, k2, k3, k4, k5⟩, hpos⟩ := hcontra
      apply hcnd
      have hp1 : t.screen.cursor_position.1 = y - area.y := by rw [hpos]
      have hp2 : t.screen.cursor_position.2 = x - area.x := by rw [hpos]
      exact ⟨k1, k2, k3, k4, by omega, by omega⟩)]
    exact hmg

theorem innerArea_none (t : PseudoTerminal) (area : Rect) (h : t.block = none) :
    innerArea t area = area := by
  unfold innerArea; rw [h]

theorem innerArea_some (t : PseudoTerminal) (area : Rect) (bl : Block)
    (h : t.block = some bl) : innerArea t area = bl.inner area := by
  unfold innerArea; rw [h]

theorem get_render_eq (t : PseudoTerminal) (area : Rect) (buf : Buffer)
    (x y : Nat) :
    (t.render area buf).get x y =
      if area.contains x y ∧ buf.area.contains x y then renderValue t area x y
      else buf.get x y := by
  unfold PseudoTerminal.render
  dsimp only
  by_cases hin : area.contains x y ∧ buf.area.contains x y
  · rw [if_pos hin]
    obtain ⟨hA, hB⟩ := hin
    cases hb : t.block with
    | none =>
      dsimp only
      have hclr : (clearArea area buf).get x y = BufCell.reset := by
        rw [get_clearArea, if_pos ⟨hA, hB⟩]
      rw [get_handle_at t area (clearArea area buf) x y hA
        (show (clearArea area buf).area.contains x y from hB) hclr]
      unfold renderValue
      rw [innerArea_none t area hb, if_pos hA]
    | some bl =>
      dsimp only
      by_cases hI : (bl.inner area).contains x y
      · have hclr : (bl.render area (clearArea area buf)).get x y
            = BufCell.reset := by
          rw [get_block_render, if_neg (by tauto), get_clearArea, if_pos ⟨hA, hB⟩]
        rw [get_handle_at t (bl.inner area) (bl.render area (clearArea area buf))
          x y hI
          (show (bl.render area (clearArea area buf)).area.contains x y from hB)
          hclr]
        unfold renderValue
        rw [innerArea_some t area bl hb, if_pos hI]
      · have hframe : (bl.render area (clearArea area buf)).get x y
            = bl.border_cell := by
          rw [get_block_render, if_pos ⟨hA,
            show (clearArea area buf).area.contains x y from hB, hI⟩]
        rw [get_handle_untouched t (bl.inner area)
          (bl.render area (clearArea area buf)) x y (by tauto), hframe]
        unfold renderValue
        rw [innerArea_some t area bl hb, if_neg hI, hb]
  · rw [if_neg hin]
    cases hb : t.block with
    | none =>
      dsimp only
      rw [get_handle_untouched t area (clearArea area buf) x y
        (show ¬ (area.contains x y ∧ (clearArea area buf).area.contains x y)
          from hin)]
      rw [get_clearArea, if_neg hin]
    | some bl =>
      dsimp only
      have hni : ¬ ((bl.inner area).contains x y ∧
          (bl.render area (clearArea area buf)).area.contains x y) := by
        intro hcontra
        exact hin ⟨Block.inner_contains bl area x y hcontra.1, hcontra.2⟩
      rw [get_handle_untouched t (bl.inner area)
        (bl.render area (clearArea area buf)) x y hni]
      rw [get_block_render, if_neg (by tauto), get_clearArea, if_neg hin]

theorem get_render_at_inner (t : PseudoTerminal) (area : Rect) (buf : Buffer)
    (r c : Nat) (hr : r < (innerArea t area).height)
    (hc : c < (innerArea t area).width)
    (hb : buf.area.contains ((innerArea t area).x + c) ((innerArea t area).y + r)) :
    (t.render area buf).get ((innerArea t area).x + c) ((innerArea t area).y + r)
      = renderedCell t (innerArea t area) r c := by
  have hic : (innerArea t area).contains ((innerArea t area).x + c)
      ((innerArea t area).y + r) := by
    unfold Rect.contains; omega
  have hac : area.contains ((innerArea t area).x + c) ((innerArea t area).y + r) :=
    innerArea_contains t area _ _ hic
  rw [get_render_eq, if_pos ⟨hac, hb⟩]
  unfold renderValue
  rw [if_pos hic]
  have e1 : (innerArea t area).y + r - (innerArea t area).y = r := by omega
  have e2 : (innerArea t area).x + c - (innerArea t area).x = c := by omega
  rw [e1, e2]

/-- Claim C1: for every Screen, destination Area (including degenerate ones)
and configuration, `render` is total and panic-free — it always yields a
surface of the same dimensions, the decoration inset is clamped (never
underflows below zero or above the outer Area), and no cell outside the
destination Area is touched, so degenerate Areas clamp to an empty
iteration range. -/
theorem render_total_and_clamped (t : PseudoTerminal) (area : Rect)
    (buf : Buffer) (x y : Nat) :
    (t.render area buf).area = buf.area
    ∧ (innerArea t area).width ≤ area.width
    ∧ (innerArea t area).height ≤ area.height
    ∧ (¬ area.contains x y → (t.render area buf).get x y = buf.get x y) := by
  refine ⟨area_render t area buf, ?_, ?_, ?_⟩
  · cases hb : t.block with
    | none => rw [innerArea_none t area hb]
    | some bl =>
      rw [innerArea_some t area bl hb]
      exact (Block.inner_bounds bl area).2.2.2.2.1
  · cases hb : t.block with
    | none => rw [innerArea_none t area hb]
    | some bl =>
      rw [innerArea_some t area bl hb]
      exact (Block.inner_bounds bl area).2.2.2.2.2
  · intro hout
    rw [get_render_eq, if_neg (fun hcontra => hout hcontra.1)]

/-- Claim C2: every destination cell of the inner area is a 1:1 unscaled
logical coordinate into the Screen — when the Screen has a cell with
renderable content there, that cell's glyph and style are applied onto the
destination cell at `(inner.x + c, inner.y + r)`; otherwise (cell missing or
contentless) the destination cell keeps its cleared/baseline value; silent
clipping in both directions of size mismatch.  Stated away from the drawn
cursor cell, whose overlay is applied afterwards. -/
theorem render_per_cell_mapping (t : PseudoTerminal) (area : Rect)
    (buf : Buffer) (r c : Nat)
    (hr : r < (innerArea t area).height) (hc : c < (innerArea t area).width)
    (hb : buf.area.contains ((innerArea t area).x + c) ((innerArea t area).y + r))
    (hcur : ¬ (cursorActive t (innerArea t area) ∧
      t.screen.cursor_position = (r, c))) :
    (t.render area buf).get ((innerArea t area).x + c) ((innerArea t area).y + r)
      = contentValue t r c := by
  rw [get_render_at_inner t area buf r c hr hc hb]
  unfold renderedCell
  rw [if_neg hcur]

/-- Claim C3: when the cursor is drawn and the Screen cell at its position
has renderable content, the destination keeps that content's glyph and only
the overlay style is merged on top; when the Screen cell there has no
content, the destination receives the cursor glyph styled with the cursor's
base style. -/
theorem render_cursor_precedence (t : PseudoTerminal) (area : Rect)
    (buf : Buffer) (r c : Nat)
    (hpos : t.screen.cursor_position = (r, c))
    (hact : cursorActive t (innerArea t area))
    (hb : buf.area.contains ((innerArea t area).x + c) ((innerArea t area).y + r)) :
    (∀ cl, t.screen.cell r c = some cl → cl.has_contents = true →
      (t.render area buf).get ((innerArea t area).x + c) ((innerArea t area).y + r)
        = (cl.apply (baseline t)).set_style t.cursor.overlay_style
      ∧ ((cl.apply (baseline t)).set_style t.cursor.overlay_style).symbol
        = (cl.apply (baseline t)).symbol)
    ∧ (∀ cl, t.screen.cell r c = some cl → cl.has_contents = false →
      (t.render area buf).get ((innerArea t area).x + c) ((innerArea t area).y + r)
        = ((baseline t).set_symbol t.cursor.symbol).set_style t.cursor.style) := by
  have hp1 : t.screen.cursor_position.1 = r := by rw [hpos]
  have hp2 : t.screen.cursor_position.2 = c := by rw [hpos]
  have hr : r < (innerArea t area).height := hp1 ▸ hact.2.2.1
  have hcw : c < (innerArea t area).width := hp2 ▸ hact.2.2.2.1
  rw [get_render_at_inner t area buf r c hr hcw hb]
  unfold renderedCell
  rw [if_pos ⟨hact, hpos⟩]
  constructor
  · intro cl hcell hhc
    refine ⟨?_, rfl⟩
    rw [hcell]
    dsimp only
    rw [if_pos hhc]
  · intro cl hcell hhc
    rw [hcell]
    dsimp only
    rw [if_neg (by simp [hhc])]

/-- Claim C4: when the CursorSpec visibility flag is false or the Screen
reports a hidden cursor, the destination cell at the cursor coordinate is
rendered exactly as ordinary screen content — no cursor-specific
modification happens. -/
theorem render_cursor_suppressed (t : PseudoTerminal) (area : Rect)
    (buf : Buffer) (r c : Nat)
    (_hpos : t.screen.cursor_position = (r, c))
    (hsup : t.cursor.show_ = false ∨ t.screen.hide_cursor = true)
    (hr : r < (innerArea t area).height) (hc : c < (innerArea t area).width)
    (hb : buf.area.contains ((innerArea t area).x + c) ((innerArea t area).y + r)) :
    (t.render area buf).get ((innerArea t area).x + c) ((innerArea t area).y + r)
      = contentValue t r c := by
  have hcur : ¬ (cursorActive t (innerArea t area) ∧
      t.screen.cursor_position = (r, c)) := by
    intro hcontra
    obtain ⟨⟨k1, k2, _, _, _⟩, _⟩ := hcontra
    cases hsup with
    | inl h => simp [h] at k1
    | inr h => simp [h] at k2
  rw [get_render_at_inner t area buf r c hr hc hb]
  unfold renderedCell
  rw [if_neg hcur]

/-- Claim C5: render clears the whole destination Area before anything else
is drawn, so within the Area the outcome is independent of whatever the
destination surface held before the call — rendering into a smaller Area
after a previous frame leaves no stale glyph inside the newly cleared
region. -/
theorem render_clear_first (t : PseudoTerminal) (area : Rect) (b1 b2 : Buffer)
    (hA : b1.area = b2.area) (x y : Nat) (hin : area.contains x y)
    (hb : b1.area.contains x y) :
    (t.render area b1).get x y = (t.render area b2).get x y := by
  rw [get_render_eq, get_render_eq, if_pos ⟨hin, hb⟩,
    if_pos ⟨hin, show b2.area.contains x y from hA ▸ hb⟩]

/-- Claim C6: with a decoration configured the compositor computes the inner
Area with the decoration's inset, draws the decoration into the outer Area
and runs all content steps against the inner Area only — every in-Area cell
outside the inner Area still holds the decoration's own glyph after render
(content never overwrites the border/title), and without a decoration the
inner Area is the given Area itself. -/
theorem render_decoration_inset (t : PseudoTerminal) (area : Rect)
    (buf : Buffer) (b : Block) (x y : Nat) (hb : t.block = some b)
    (hin : area.contains x y) (hbuf : buf.area.contains x y)
    (hni : ¬ (b.inner area).contains x y) :
    (t.render area buf).get x y = b.border_cell
    ∧ innerArea t area = b.inner area
    ∧ innerArea ⟨t.screen, none, t.style, t.cursor⟩ area = area := by
  refine ⟨?_, innerArea_some t area b hb, innerArea_none _ area rfl⟩
  rw [get_render_eq, if_pos ⟨hin, hbuf⟩]
  unfold renderValue
  rw [innerArea_some t area b hb, if_neg hni, hb]

/-- Claim C7: with an override style configured, the style is applied as a
baseline across the inner Area before content: an inner-Area cell reached
by actual screen content ends up fully replaced by that content's glyph and
style, and an inner-Area cell not touched by screen content (missing or
contentless Screen cell) retains the baseline-styled cleared cell.  Stated
away from the drawn cursor cell, whose overlay is applied afterwards. -/
theorem render_baseline_fill (t : PseudoTerminal) (area : Rect) (buf : Buffer)
    (st : Style) (r c : Nat) (hst : t.style = some st)
    (hr : r < (innerArea t area).height) (hc : c < (innerArea t area).width)
    (hb : buf.area.contains ((innerArea t area).x + c) ((innerArea t area).y + r))
    (hcur : ¬ (cursorActive t (innerArea t area) ∧
      t.screen.cursor_position = (r, c))) :
    (∀ cl, t.screen.cell r c = some cl → cl.has_contents = true →
      (t.render area buf).get ((innerArea t area).x + c) ((innerArea t area).y + r)
        = cl.apply (BufCell.reset.set_style st)
      ∧ cl.apply (BufCell.reset.set_style st)
        = ⟨cl.symbol, cl.fg, cl.bg, cl.modifier⟩)
    ∧ (t.screen.cell r c = none →
      (t.render area buf).get ((innerArea t area).x + c) ((innerArea t area).y + r)
        = BufCell.reset.set_style st)
    ∧ (∀ cl, t.screen.cell r c = some cl → cl.has_contents = false →
      (t.render area buf).get ((innerArea t area).x + c) ((innerArea t area).y + r)
        = BufCell.reset.set_style st) := by
  have hbase : baseline t = BufCell.reset.set_style st := by
    unfold baseline; rw [hst]
  rw [get_render_at_inner t area buf r c hr hc hb]
  unfold renderedCell
  rw [if_neg hcur]
  refine ⟨?_, ?_, ?_⟩
  · intro cl hcell hhc
    refine ⟨?_, rfl⟩
    unfold contentValue
    rw [hcell]
    dsimp only
    rw [if_pos hhc, hbase]
  · intro hcell
    unfold contentValue
    rw [hcell, hbase]
  · intro cl hcell hhc
    unfold contentValue
    rw [hcell]
    dsimp only
    rw [if_neg (by simp [hhc]), hbase]

/-- Claim C8: `new(screen)` yields the default configuration — no
decoration, no override style, a default CursorSpec that is visible, uses
the solid block glyph, a gray-foreground base style and a reverse-video
overlay style — and its screen accessor returns the same screen. -/
theorem new_defaults (s : Screen) :
    (PseudoTerminal.new s).screen = s
    ∧ (PseudoTerminal.new s).block = none
    ∧ (PseudoTerminal.new s).style = none
    ∧ (PseudoTerminal.new s).cursor = Cursor.default
    ∧ Cursor.default.show_ = true
    ∧ Cursor.default.symbol = "█"
    ∧ Cursor.default.style = { Style.default with fg := some Color.Gray }
    ∧ Cursor.default.overlay_style
      = { Style.default with
          add_modifier := { Modifier.empty with reversed := true } } :=
  ⟨rfl, rfl, rfl, rfl, rfl, rfl, rfl, rfl⟩

/-- Claim C9: render is deterministic — the same configuration and Area
rendered into two independently cleared destination surfaces of equal
dimensions produce identical surfaces (cell for cell, and the same output
rectangle); the configuration and the Screen it borrows are not mutated,
the call being a pure function of its inputs. -/
theorem render_deterministic (t : PseudoTerminal) (area : Rect)
    (b1 b2 : Buffer) (hA : b1.area = b2.area)
    (h1 : ∀ x y, b1.get x y = BufCell.reset)
    (h2 : ∀ x y, b2.get x y = BufCell.reset) (x y : Nat) :
    (t.render area b1).get x y = (t.render area b2).get x y
    ∧ (t.render area b1).area = (t.render area b2).area := by
  constructor
  · rw [get_render_eq, get_render_eq]
    by_cases hcnt : area.contains x y ∧ b1.area.contains x y
    · rw [if_pos hcnt, if_pos ⟨hcnt.1, show b2.area.contains x y from hA ▸ hcnt.2⟩]
    · rw [if_neg hcnt, if_neg (show ¬ (area.contains x y ∧ b2.area.contains x y) by
        rw [← hA]; exact hcnt), h1 x y, h2 x y]
  · rw [area_render, area_render, hA]

/-- Claim C10: every builder setter updates only its own field —
`block`, `style` and `cursor` on the configuration, and `symbol`, `style`,
`overlay_style` and `visibility` on the CursorSpec — leaving every other
field (including the screen reference) unchanged. -/
theorem builder_frame_effects (t : PseudoTerminal) (b : Block) (st : Style)
    (cu cu0 : Cursor) (sym : String) (vis : Bool) :
    ((t.with_block b).screen = t.screen ∧ (t.with_block b).style = t.style ∧
      (t.with_block b).cursor = t.cursor ∧ (t.with_block b).block = some b)
    ∧ ((t.with_style st).screen = t.screen ∧ (t.with_style st).block = t.block ∧
      (t.with_style st).cursor = t.cursor ∧ (t.with_style st).style = some st)
    ∧ ((t.with_cursor cu).screen = t.screen ∧ (t.with_cursor cu).block = t.block ∧
      (t.with_cursor cu).style = t.style ∧ (t.with_cursor cu).cursor = cu)
    ∧ ((cu0.with_symbol sym).show_ = cu0.show_ ∧
      (cu0.with_symbol sym).style = cu0.style ∧
      (cu0.with_symbol sym).overlay_style = cu0.overlay_style ∧
      (cu0.with_symbol sym).symbol = sym)
    ∧ ((cu0.with_style st).show_ = cu0.show_ ∧
      (cu0.with_style st).symbol = cu0.symbol ∧
      (cu0.with_style st).overlay_style = cu0.overlay_style ∧
      (cu0.with_style st).style = st)
    ∧ ((cu0.with_overlay_style st).show_ = cu0.show_ ∧
      (cu0.with_overlay_style st).symbol = cu0.symbol ∧
      (cu0.with_overlay_style st).style = cu0.style ∧
      (cu0.with_overlay_style st).overlay_style = st)
    ∧ ((cu0.visibility vis).symbol = cu0.symbol ∧
      (cu0.visibility vis).style = cu0.style ∧
      (cu0.visibility vis).overlay_style = cu0.overlay_style ∧
      (cu0.visibility vis).show_ = vis) :=
  ⟨⟨rfl, rfl, rfl, rfl⟩, ⟨rfl, rfl, rfl, rfl⟩, ⟨rfl, rfl, rfl, rfl⟩,
   ⟨rfl, rfl, rfl, rfl⟩, ⟨rfl, rfl, rfl, rfl⟩, ⟨rfl, rfl, rfl, rfl⟩,
   ⟨rfl, rfl, rfl, rfl⟩⟩

/-- A concrete screen cell with renderable content, for concrete runs. -/
def sampleCell : Cell := ⟨true, "a", Color.White, Color.Black, Modifier.empty⟩

/-- A concrete 2×2 screen with content everywhere and the cursor at the
origin, for concrete runs. -/
def sampleScreen : Screen :=
  { cell := fun r c => if r < 2 ∧ c < 2 then some sampleCell else none
    hide_cursor := false
    cursor_position := (0, 0) }

/-- A concrete 4×4 destination rectangle. -/
def sampleArea : Rect := ⟨0, 0, 4, 4⟩

/-- A cleared concrete 4×4 destination surface. -/
def sampleBuf : Buffer := ⟨⟨0, 0, 4, 4⟩, fun _ _ => BufCell.reset⟩

/-- A second, independently cleared concrete 4×4 destination surface. -/
def sampleBufC : Buffer :=
  ⟨⟨0, 0, 4, 4⟩, fun _ _ => ⟨" ", Color.Reset, Color.Reset, Modifier.empty⟩⟩

/-- A concrete 4×4 destination surface full of stale glyphs. -/
def sampleBufStale : Buffer :=
  ⟨⟨0, 0, 4, 4⟩, fun _ _ => ⟨"z", Color.Cyan, Color.Black, Modifier.empty⟩⟩

/-- A concrete decoration with all four borders. -/
def sampleBlock : Block := ⟨true, true, true, true, false, Style.default⟩

/-- A concrete override style. -/
def sampleStyle : Style :=
  ⟨some Color.White, some Color.Black, Modifier.empty, Modifier.empty⟩

/-- A concrete configuration whose cursor spec is switched invisible. -/
def sampleHidden : PseudoTerminal :=
  (PseudoTerminal.new sampleScreen).with_cursor (Cursor.default.visibility false)

/-- A concrete configuration with the decoration set. -/
def sampleBlocked : PseudoTerminal :=
  (PseudoTerminal.new sampleScreen).with_block sampleBlock

/-- A concrete configuration with the override style set. -/
def sampleStyled : PseudoTerminal :=
  (PseudoTerminal.new sampleScreen).with_style sampleStyle

theorem render_total_and_clamped_witness :
    ((PseudoTerminal.new sampleScreen).render ⟨0, 0, 0, 0⟩ sampleBuf).get 1 1
      = sampleBuf.get 1 1 :=
  (render_total_and_clamped (PseudoTerminal.new sampleScreen) ⟨0, 0, 0, 0⟩
    sampleBuf 1 1).2.2.2 (by decide)

theorem render_per_cell_mapping_witness :
    ((PseudoTerminal.new sampleScreen).render sampleArea sampleBuf).get
        ((innerArea (PseudoTerminal.new sampleScreen) sampleArea).x + 1)
        ((innerArea (PseudoTerminal.new sampleScreen) sampleArea).y + 1)
      = contentValue (PseudoTerminal.new sampleScreen) 1 1 :=
  render_per_cell_mapping (PseudoTerminal.new sampleScreen) sampleArea sampleBuf
    1 1 (by decide) (by decide) (by decide) (by decide)

theorem render_cursor_precedence_witness :
    ((PseudoTerminal.new sampleScreen).render sampleArea sampleBuf).get
        ((innerArea (PseudoTerminal.new sampleScreen) sampleArea).x + 0)
        ((innerArea (PseudoTerminal.new sampleScreen) sampleArea).y + 0)
      = (sampleCell.apply (baseline (PseudoTerminal.new sampleScreen))).set_style
          (PseudoTerminal.new sampleScreen).cursor.overlay_style
    ∧ ((sampleCell.apply (baseline (PseudoTerminal.new sampleScreen))).set_style
          (PseudoTerminal.new sampleScreen).cursor.overlay_style).symbol
      = (sampleCell.apply (baseline (PseudoTerminal.new sampleScreen))).symbol :=
  (render_cursor_precedence (PseudoTerminal.new sampleScreen) sampleArea
    sampleBuf 0 0 rfl (by decide) (by decide)).1 sampleCell rfl rfl

theorem render_cursor_suppressed_witness :
    (sampleHidden.render sampleArea sampleBuf).get
        ((innerArea sampleHidden sampleArea).x + 0)
        ((innerArea sampleHidden sampleArea).y + 0)
      = contentValue sampleHidden 0 0 :=
  render_cursor_suppressed sampleHidden sampleArea sampleBuf 0 0 rfl
    (Or.inl rfl) (by decide) (by decide) (by decide)

theorem render_clear_first_witness :
    ((PseudoTerminal.new sampleScreen).render sampleArea sampleBuf).get 0 0
      = ((PseudoTerminal.new sampleScreen).render sampleArea sampleBufStale).get
          0 0 :=
  render_clear_first (PseudoTerminal.new sampleScreen) sampleArea sampleBuf
    sampleBufStale rfl 0 0 (by decide) (by decide)

theorem render_decoration_inset_witness :
    (sampleBlocked.render sampleArea sampleBuf).get 0 0
      = sampleBlock.border_cell :=
  (render_decoration_inset sampleBlocked sampleArea sampleBuf sampleBlock 0 0
    rfl (by decide) (by decide) (by decide)).1

theorem render_baseline_fill_witness :
    (sampleStyled.render sampleArea sampleBuf).get
        ((innerArea sampleStyled sampleArea).x + 1)
        ((innerArea sampleStyled sampleArea).y + 1)
      = sampleCell.apply (BufCell.reset.set_style sampleStyle)
    ∧ sampleCell.apply (BufCell.reset.set_style sampleStyle)
      = ⟨sampleCell.symbol, sampleCell.fg, sampleCell.bg, sampleCell.modifier⟩ :=
  (render_baseline_fill sampleStyled sampleArea sampleBuf sampleStyle 1 1 rfl
    (by decide) (by decide) (by decide) (by decide)).1 sampleCell rfl rfl

theorem render_deterministic_witness :
    ((PseudoTerminal.new sampleScreen).render sampleArea sampleBuf).get 2 3
      = ((PseudoTerminal.new sampleScreen).render sampleArea sampleBufC).get 2 3
    ∧ ((PseudoTerminal.new sampleScreen).render sampleArea sampleBuf).area
      = ((PseudoTerminal.new sampleScreen).render sampleArea sampleBufC).area :=
  render_deterministic (PseudoTerminal.new sampleScreen) sampleArea sampleBuf
    sampleBufC rfl (fun _ _ => rfl) (fun _ _ => rfl) 2 3
